import Mathlib

set_option maxRecDepth 100000

/-!
Verification of the generate→validate→refine→fallback pipeline and the
workflow history of `streamlit_app.py` (ChartChat).

Strings are embedded as `List Char`.  Each definition below mirrors one
Python function of the source file; the generative backend is abstracted
as a function from call index to an observable outcome (`BackendResp`):
either the call raises (any exception) or it returns a text.
-/

/-- Python `\s` / `str.strip()` whitespace over the ASCII range:
space, tab, newline, carriage return, vertical tab, form feed. -/
def isPySpace (c : Char) : Bool :=
  c == ' ' || c == '\t' || c == '\n' || c == '\r' || c == '\x0b' || c == '\x0c'

/-- Python `str.strip()`: drop leading and trailing whitespace. -/
def stripPy (l : List Char) : List Char :=
  ((l.dropWhile isPySpace).reverse.dropWhile isPySpace).reverse

/-- Python `s.startswith('#')` on a line. -/
def startsWithHash : List Char → Bool
  | c :: _ => c == '#'
  | [] => false

/-- Python `pat in s` (substring test), scanning every position. -/
def containsSub (pat : List Char) : List Char → Bool
  | [] => pat.isPrefixOf []
  | c :: rest => pat.isPrefixOf (c :: rest) || containsSub pat rest

/-- Scanner behind `replaceDel`: while `skip > 0` the characters of an
already-matched occurrence are being discarded; at `skip = 0` the scanner
tests for a fresh occurrence of `pat` at the current position. -/
def replaceDelAux (pat : List Char) : Nat → List Char → List Char
  | _, [] => []
  | 0, c :: rest =>
    if pat.isPrefixOf (c :: rest) then replaceDelAux pat (pat.length - 1) rest
    else c :: replaceDelAux pat 0 rest
  | k + 1, _ :: rest => replaceDelAux pat k rest

/-- Python `s.replace(pat, "")`: left-to-right, non-overlapping removal
of every occurrence of `pat` (used with the two fence patterns). -/
def replaceDel (pat : List Char) (l : List Char) : List Char :=
  replaceDelAux pat 0 l

/-- Python `s.split('\n')`. -/
def splitNl : List Char → List (List Char)
  | [] => [[]]
  | c :: rest =>
    if c == '\n' then [] :: splitNl rest
    else
      match splitNl rest with
      | [] => [[c]]
      | l :: ls => (c :: l) :: ls

/-- Python `'\n'.join(lines)`. -/
def joinNl : List (List Char) → List Char
  | [] => []
  | [l] => l
  | l :: ls => l ++ '\n' :: joinNl ls

/-- The markdown fence `"```"` (three backticks). -/
def fence : List Char := ['\x60', '\x60', '\x60']

/-- The markdown fence `"```javascript"`. -/
def jsFence : List Char :=
  ['\x60', '\x60', '\x60', 'j', 'a', 'v', 'a', 's', 'c', 'r', 'i', 'p', 't']

/-- First character is a backtick. -/
def startsTick : List Char → Bool
  | c :: _ => c == '\x60'
  | [] => false

/-- First two characters are backticks. -/
def startsTick2 : List Char → Bool
  | a :: b :: _ => a == '\x60' && b == '\x60'
  | _ => false

/-- A line contains a newline character (never true for split output). -/
def hasNl (l : List Char) : Bool := l.any (fun c => c == '\n')

/-- The filter of `clean_d3_response`: keep a line iff its strip is
non-empty and does not start with `'#'`. -/
def keepLine (l : List Char) : Bool :=
  !(stripPy l).isEmpty && !startsWithHash (stripPy l)

/-- Test whether a stripped line starts with `function createVisualization`. -/
def startsFCV (l : List Char) : Bool :=
  ("function createVisualization".data).isPrefixOf (stripPy l)

/-- The wrapper header line inserted by the sanitizer. -/
def fcvHeader : List Char := "function createVisualization(data, svgElement) \x7b".data

/-- The wrapper closing line inserted by the sanitizer. -/
def closeBrace : List Char := "\x7d".data

/-- The `clean_lines` list of `clean_d3_response` (lines 215–228): strip
the two markdown fences, split into lines, drop blank and `#`-comment
lines, and prepend/append the entry-point wrapper if no line starts with
`function createVisualization`. -/
def clean_lines (s : List Char) : List (List Char) :=
  let ls := (splitNl (replaceDel fence (replaceDel jsFence s))).filter keepLine
  if ls.any startsFCV then ls else fcvHeader :: (ls ++ [closeBrace])

/-- `clean_d3_response` (lines 215–228): `'\n'.join(clean_lines)`. -/
def clean_d3_response (s : List Char) : List Char :=
  joinNl (clean_lines s)

/-- Consume a literal, returning the rest of the input on success. -/
def eatLit (pat : List Char) (l : List Char) : Option (List Char) :=
  if pat.isPrefixOf l then some (l.drop pat.length) else none

/-- Consume at least one whitespace character, then all following ones. -/
def eatWs1 : List Char → Option (List Char)
  | [] => none
  | c :: rest => if isPySpace c then some (rest.dropWhile isPySpace) else none

/-- Match of the validator's entry-point regular expression
`function\s+createVisualization\s*\(data,\s*svgElement\)\s*{` anchored at
the current position.  Every `\s*`/`\s+` is followed by a non-space
literal, so maximal whitespace munching is exact. -/
def matchSigAt (l : List Char) : Bool :=
  (Option.bind (eatLit "function".data l) (fun r1 =>
   Option.bind (eatWs1 r1) (fun r2 =>
   Option.bind (eatLit "createVisualization".data r2) (fun r3 =>
   Option.bind (eatLit "(data,".data (r3.dropWhile isPySpace)) (fun r4 =>
   Option.bind (eatLit "svgElement)".data (r4.dropWhile isPySpace)) (fun r5 =>
   eatLit ['\x7b'] (r5.dropWhile isPySpace))))))).isSome

/-- Python `re.search` of the entry-point pattern: try every position. -/
def searchSig : List Char → Bool
  | [] => false
  | c :: rest => matchSigAt (c :: rest) || searchSig rest

/-- `validate_d3_code` (lines 87–102): entry-point signature present,
at least one whitelisted D3 call, balanced braces. -/
def validate_d3_code (code : List Char) : Bool :=
  searchSig code &&
  (containsSub "d3.select".data code || containsSub "d3.scaleLinear".data code ||
   containsSub "d3.axisBottom".data code || containsSub "d3.axisLeft".data code) &&
  (code.count '\x7b' == code.count '\x7d')

/-- The literal returned by `generate_fallback_visualization`
(lines 264–325), transcribed byte for byte (braces escaped). -/
def fallbackText : String := "
    function createVisualization(data, svgElement) \x7b
        const margin = \x7b top: 20, right: 20, bottom: 50, left: 50 \x7d;
        const width = 800 - margin.left - margin.right;
        const height = 500 - margin.top - margin.bottom;
        
        svgElement.attr(\"width\", width + margin.left + margin.right)
                   .attr(\"height\", height + margin.top + margin.bottom);
        
        const svg = svgElement.append(\"g\")
            .attr(\"transform\", `translate($\x7bmargin.left\x7d,$\x7bmargin.top\x7d)`);

        // Assuming the first column is for x-axis and second for y-axis
        const xKey = Object.keys(data[0])[0];
        const yKey = Object.keys(data[0])[1];

        const xScale = d3.scaleBand()
            .domain(data.map(d => d[xKey]))
            .range([0, width])
            .padding(0.1);

        const yScale = d3.scaleLinear()
            .domain([0, d3.max(data, d => +d[yKey])])
            .range([height, 0]);

        svg.selectAll(\"rect\")
            .data(data)
            .join(\"rect\")
            .attr(\"x\", d => xScale(d[xKey]))
            .attr(\"y\", d => yScale(+d[yKey]))
            .attr(\"width\", xScale.bandwidth())
            .attr(\"height\", d => height - yScale(+d[yKey]))
            .attr(\"fill\", \"steelblue\");

        svg.append(\"g\")
            .attr(\"transform\", `translate(0, $\x7bheight\x7d)`)
            .call(d3.axisBottom(xScale));

        svg.append(\"g\")
            .call(d3.axisLeft(yScale));

        svg.append(\"text\")
            .attr(\"x\", width / 2)
            .attr(\"y\", height + margin.top + 20)
            .attr(\"text-anchor\", \"middle\")
            .text(xKey);

        svg.append(\"text\")
            .attr(\"transform\", \"rotate(-90)\")
            .attr(\"x\", -height / 2)
            .attr(\"y\", -margin.left + 20)
            .attr(\"text-anchor\", \"middle\")
            .text(yKey);
    \x7d
    "

/-- `generate_fallback_visualization` (lines 264–325): a fixed,
schema-independent artifact. -/
def generate_fallback_visualization : List Char := fallbackText.data

/-- Observable outcome of one backend call (`client.chat.completions.create`
plus the message-content access): either some exception is raised, or a
text is returned. -/
inductive BackendResp where
  | raise : BackendResp
  | text : List Char → BackendResp

/-- A backend behavior: the outcome of the `k`-th backend call of a
pipeline run (call `0` is the initial generation). -/
def Backend : Type := Nat → BackendResp

/-- `generate_d3_code` (lines 104–178), given the outcome of its single
backend call.  The whole call is wrapped in `try/except Exception`: a
raised exception, and likewise the `ValueError` raised when the returned
text strips to empty, both fall into the handler, which returns
`generate_fallback_visualization()`.  Otherwise the raw text is returned
unsanitized.  The dataframe, API key and user instruction only shape the
prompt, never the result, so they are dropped here. -/
def generate_d3_code (resp : BackendResp) : List Char :=
  match resp with
  | .raise => generate_fallback_visualization
  | .text s => if s.all isPySpace then generate_fallback_visualization else s

/-- The `for attempt in range(max_attempts)` loop of `refine_d3_code`
(lines 184–209).  `calls` counts backend calls already issued and indexes
the backend; the result records the total number of backend calls.  The
backend call of an attempt is not guarded by any `try`, so a raising
backend propagates the exception out of `refine_d3_code` (`.error`,
carrying the number of calls issued). -/
def refineLoop (backend : Backend) : List Char → Nat → Nat → Except Nat (List Char × Nat)
  | code, calls, 0 => .ok (code, calls)
  | code, calls, fuel + 1 =>
    if validate_d3_code code then .ok (code, calls)
    else
      match backend calls with
      | .raise => .error (calls + 1)
      | .text s => refineLoop backend (clean_d3_response s) (calls + 1) fuel

/-- `refine_d3_code` (lines 180–213): validate-before-call loop; when the
attempts are exhausted it returns the current code — the comment in the
source reads "If we've exhausted our attempts, return the last attempt". -/
def refine_d3_code (initial_code : List Char) (backend : Backend)
    (max_attempts : Nat) : Except Nat (List Char × Nat) :=
  refineLoop backend initial_code 0 max_attempts

/-- Number of backend calls recorded in a `refine_d3_code` outcome. -/
def refineCalls : Except Nat (List Char × Nat) → Nat
  | .ok (_, c) => c
  | .error c => c

/-- `generate_and_validate_d3_code` (lines 327–335): initial generation
(backend call `0`), sanitize, validate; on failure hand the sanitized code
to `refine_d3_code` with the default `max_attempts = 3` (refinement calls
are backend calls `1, 2, …`).  The `Nat` paired with the artifact counts
the refinement backend calls issued. -/
def generate_and_validate_d3_code (backend : Backend) : Except Nat (List Char × Nat) :=
  let cleaned := clean_d3_response (generate_d3_code (backend 0))
  if validate_d3_code cleaned then .ok (cleaned, 0)
  else refine_d3_code cleaned (fun k => backend (k + 1)) 3

/-- `MAX_WORKFLOW_HISTORY` (line 19). -/
def MAX_WORKFLOW_HISTORY : Nat := 10

/-- One entry of `st.session_state.workflow_history`.  The manual-edit
append (lines 400–403) stores no `version` key, hence the `Option`. -/
structure HistoryEntry where
  version : Option Nat
  request : List Char
  code : List Char
deriving DecidableEq

/-- The initial-generation append (lines 363–367): plain `list.append`,
no eviction. -/
def appendInitial (h : List HistoryEntry) (code : List Char) : List HistoryEntry :=
  h ++ [⟨some (h.length + 1), "Initial comparative visualization".data, code⟩]

/-- The update-request append (lines 381–385): plain `list.append`,
no eviction. -/
def appendUpdate (h : List HistoryEntry) (userInput code : List Char) : List HistoryEntry :=
  h ++ [⟨some (h.length + 1), userInput, code⟩]

/-- The manual-edit append (lines 400–405): append, then
`if len(history) > MAX_WORKFLOW_HISTORY: history.pop(0)`. -/
def appendManualEdit (h : List HistoryEntry) (code : List Char) : List HistoryEntry :=
  let h2 := h ++ [⟨none, "Manual code edit".data, code⟩]
  if MAX_WORKFLOW_HISTORY < h2.length then h2.tail else h2

/-- The session state touched by the revert button: the history list and
the current-artifact pointer `current_viz`. -/
structure AppState where
  workflow_history : List HistoryEntry
  current_viz : List Char

/-- The revert handler (lines 422–425): `st.session_state.current_viz =
step['code']` for the `i`-th displayed step; nothing else of the session
state is written. -/
def revertStep (s : AppState) (i : Nat) (hi : i < s.workflow_history.length) : AppState :=
  { s with current_viz := (s.workflow_history.get ⟨i, hi⟩).code }


/-! Lemmas about `replaceDel` and the fence patterns. -/

theorem replaceDelAux_eq_drop (pat : List Char) :
    ∀ (k : Nat) (l : List Char), replaceDelAux pat k l = replaceDel pat (l.drop k) := by
  intro k
  induction k with
  | zero => intro l; cases l <;> rfl
  | succ n ih =>
    intro l
    cases l with
    | nil => rfl
    | cons c rest => simpa [replaceDelAux] using ih rest

theorem replaceDel_nil (pat : List Char) : replaceDel pat [] = [] := rfl

theorem replaceDel_cons (pat : List Char) (c : Char) (rest : List Char) :
    replaceDel pat (c :: rest) =
      if pat.isPrefixOf (c :: rest) then replaceDel pat (rest.drop (pat.length - 1))
      else c :: replaceDel pat rest := by
  show replaceDelAux pat 0 (c :: rest) = _
  rw [replaceDelAux, replaceDelAux_eq_drop]
  rfl

theorem char_beq_comm (a b : Char) : (a == b) = (b == a) := by
  by_cases h : a = b
  · subst h; rfl
  · rw [beq_eq_false_iff_ne.mpr h, beq_eq_false_iff_ne.mpr (Ne.symm h)]

theorem startsTick_cons (c : Char) (rest : List Char) :
    startsTick (c :: rest) = (c == '\x60') := rfl


theorem startsTick2_cons (c : Char) (rest : List Char) :
    startsTick2 (c :: rest) = (c == '\x60' && startsTick rest) := by
  cases rest <;> simp [startsTick2, startsTick]

theorem fence_isPrefixOf_cons (c : Char) (rest : List Char) :
    fence.isPrefixOf (c :: rest) = (c == '\x60' && startsTick2 rest) := by
  rcases rest with _ | ⟨d, _ | ⟨e, rest'⟩⟩
  · simp [fence, List.isPrefixOf, startsTick2]
  · simp [fence, List.isPrefixOf, startsTick2]
  · simp only [fence, List.isPrefixOf, startsTick2, Bool.and_true]
    rw [char_beq_comm '\x60' c, char_beq_comm '\x60' d, char_beq_comm '\x60' e]

theorem startsTick_replaceDel {l : List Char} (h : startsTick l = false) :
    startsTick (replaceDel fence l) = false := by
  cases l with
  | nil => rfl
  | cons c rest =>
    rw [startsTick_cons] at h
    rw [replaceDel_cons, if_neg (by simp [fence_isPrefixOf_cons, h]), startsTick_cons]
    exact h

theorem startsTick2_replaceDel {l : List Char} (h : startsTick2 l = false) :
    startsTick2 (replaceDel fence l) = false := by
  cases l with
  | nil => rfl
  | cons c rest =>
    rw [startsTick2_cons] at h
    by_cases hc : (c == '\x60') = true
    · have hrest : startsTick rest = false := by simpa [hc] using h
      have h2 : startsTick2 rest = false := by
        cases rest with
        | nil => rfl
        | cons d t =>
          rw [startsTick_cons] at hrest
          rw [startsTick2_cons, hrest]
          simp
      rw [replaceDel_cons, if_neg (by simp [fence_isPrefixOf_cons, h2]), startsTick2_cons]
      rw [startsTick_replaceDel hrest]
      simp
    · have hc' : (c == '\x60') = false := by revert hc; cases c == '\x60' <;> simp
      rw [replaceDel_cons, if_neg (by simp [fence_isPrefixOf_cons, hc']), startsTick2_cons,
        hc']
      simp

theorem containsSub_nil (pat : List Char) : containsSub pat [] = pat.isPrefixOf [] := rfl

theorem containsSub_cons (pat : List Char) (c : Char) (rest : List Char) :
    containsSub pat (c :: rest) = (pat.isPrefixOf (c :: rest) || containsSub pat rest) := rfl

theorem containsSub_fence_replaceDel_aux :
    ∀ (n : Nat) (l : List Char), l.length ≤ n →
      containsSub fence (replaceDel fence l) = false := by
  intro n
  induction n with
  | zero =>
    intro l hl
    have : l = [] := List.length_eq_zero.mp (Nat.le_zero.mp hl)
    subst this
    rfl
  | succ n ih =>
    intro l hl
    cases l with
    | nil => rfl
    | cons c rest =>
      rw [replaceDel_cons]
      by_cases hp : fence.isPrefixOf (c :: rest) = true
      · rw [if_pos hp]
        apply ih
        have := List.length_drop (fence.length - 1) rest
        simp only [List.length_cons] at hl
        omega
      · have hp' : fence.isPrefixOf (c :: rest) = false := by
          revert hp; cases fence.isPrefixOf (c :: rest) <;> simp
        rw [if_neg (by simp [hp'])]
        rw [containsSub_cons]
        have hrest : containsSub fence (replaceDel fence rest) = false := by
          apply ih
          simp only [List.length_cons] at hl
          omega
        rw [hrest]
        rw [fence_isPrefixOf_cons]
        by_cases hc : (c == '\x60') = true
        · have h2 : startsTick2 rest = false := by
            rw [fence_isPrefixOf_cons, hc] at hp'
            simpa using hp'
          have := startsTick2_replaceDel h2
          simp [this]
        · have hc' : (c == '\x60') = false := by revert hc; cases c == '\x60' <;> simp
          simp [hc']

theorem containsSub_fence_replaceDel (l : List Char) :
    containsSub fence (replaceDel fence l) = false :=
  containsSub_fence_replaceDel_aux l.length l (Nat.le_refl _)

theorem fence_isPrefixOf_of_jsFence {l : List Char} (h : jsFence.isPrefixOf l = true) :
    fence.isPrefixOf l = true := by
  rcases l with _ | ⟨a, _ | ⟨b, _ | ⟨c, t⟩⟩⟩
  · simp [jsFence, List.isPrefixOf] at h
  · simp [jsFence, List.isPrefixOf] at h
  · simp [jsFence, List.isPrefixOf] at h
  · simp only [jsFence, fence, List.isPrefixOf, Bool.and_eq_true] at h ⊢
    exact ⟨h.1, h.2.1, h.2.2.1, trivial⟩

theorem containsSub_jsFence_eq_false {l : List Char} (h : containsSub fence l = false) :
    containsSub jsFence l = false := by
  induction l with
  | nil => rfl
  | cons c rest ih =>
    rw [containsSub_cons] at h ⊢
    simp only [Bool.or_eq_false_iff] at h ⊢
    refine ⟨?_, ih h.2⟩
    by_cases hj : jsFence.isPrefixOf (c :: rest) = true
    · rw [fence_isPrefixOf_of_jsFence hj] at h
      exact absurd h.1 (by simp)
    · revert hj; cases jsFence.isPrefixOf (c :: rest) <;> simp

theorem replaceDel_eq_self {pat l : List Char} (h : containsSub pat l = false) :
    replaceDel pat l = l := by
  induction l with
  | nil => rfl
  | cons c rest ih =>
    rw [containsSub_cons] at h
    simp only [Bool.or_eq_false_iff] at h
    rw [replaceDel_cons, if_neg (by simp [h.1])]
    rw [ih h.2]

/-! Lemmas about `splitNl` and `joinNl`. -/

theorem splitNl_ne_nil (s : List Char) : splitNl s ≠ [] := by
  cases s with
  | nil => simp [splitNl]
  | cons c rest =>
    rw [splitNl]
    by_cases h : (c == '\n') = true
    · simp [h]
    · have h' : (c == '\n') = false := by revert h; cases c == '\n' <;> simp
      simp only [h']
      cases splitNl rest <;> simp

theorem joinNl_cons_cons (l l' : List Char) (ls : List (List Char)) :
    joinNl (l :: l' :: ls) = l ++ '\n' :: joinNl (l' :: ls) := rfl

theorem joinNl_splitNl (s : List Char) : joinNl (splitNl s) = s := by
  induction s with
  | nil => rfl
  | cons c rest ih =>
    rw [splitNl]
    by_cases h : (c == '\n') = true
    · rw [if_pos h]
      have hc : c = '\n' := by simpa using h
      subst hc
      cases hsp : splitNl rest with
      | nil => exact absurd hsp (splitNl_ne_nil rest)
      | cons l ls =>
        rw [joinNl_cons_cons, List.nil_append, ← hsp, ih]
    · rw [if_neg h]
      cases hsp : splitNl rest with
      | nil => exact absurd hsp (splitNl_ne_nil rest)
      | cons l ls =>
        show joinNl ((c :: l) :: ls) = c :: rest
        cases ls with
        | nil =>
          rw [hsp] at ih
          simp only [joinNl] at ih ⊢
          rw [ih]
        | cons l2 ls2 =>
          rw [hsp, joinNl_cons_cons] at ih
          rw [joinNl_cons_cons, List.cons_append, ih]

theorem hasNl_of_mem_splitNl {s : List Char} {l : List Char} (hm : l ∈ splitNl s) :
    hasNl l = false := by
  induction s generalizing l with
  | nil =>
    simp only [splitNl, List.mem_singleton] at hm
    subst hm; rfl
  | cons c rest ih =>
    rw [splitNl] at hm
    by_cases h : (c == '\n') = true
    · simp only [h, if_pos] at hm
      rcases List.mem_cons.mp hm with h1 | h2
      · subst h1; rfl
      · exact ih h2
    · have h' : (c == '\n') = false := by revert h; cases c == '\n' <;> simp
      simp only [h', Bool.false_eq_true, if_false] at hm
      cases hsp : splitNl rest with
      | nil => exact absurd hsp (splitNl_ne_nil rest)
      | cons hd tl =>
        rw [hsp] at hm
        rcases List.mem_cons.mp hm with h1 | h2
        · subst h1
          have hhd : hasNl hd = false := ih (hsp ▸ List.mem_cons_self hd tl)
          simp only [hasNl, List.any_cons] at hhd ⊢
          rw [h', hhd]
          rfl
        · exact ih (hsp ▸ List.mem_cons_of_mem hd h2)

theorem splitNl_of_noNl {l : List Char} (h : hasNl l = false) : splitNl l = [l] := by
  induction l with
  | nil => rfl
  | cons c rest ih =>
    simp only [hasNl, List.any_cons, Bool.or_eq_false_iff] at h
    rw [splitNl]
    simp only [h.1, Bool.false_eq_true, if_false]
    rw [ih h.2]

theorem splitNl_append_nl {a : List Char} (t : List Char) (h : hasNl a = false) :
    splitNl (a ++ '\n' :: t) = a :: splitNl t := by
  induction a with
  | nil => simp [splitNl]
  | cons c a' ih =>
    simp only [hasNl, List.any_cons, Bool.or_eq_false_iff] at h
    rw [List.cons_append, splitNl]
    simp only [h.1, Bool.false_eq_true, if_false]
    rw [ih h.2]

theorem splitNl_joinNl :
    ∀ (ls : List (List Char)), ls ≠ [] → (∀ l ∈ ls, hasNl l = false) →
      splitNl (joinNl ls) = ls
  | [], hne, _ => absurd rfl hne
  | [l], _, hnl => by
    simp only [joinNl]
    exact splitNl_of_noNl (hnl l (List.mem_singleton_self l))
  | l :: l' :: ls, _, hnl => by
    rw [joinNl_cons_cons]
    rw [splitNl_append_nl _ (hnl l (List.mem_cons_self _ _))]
    rw [splitNl_joinNl (l' :: ls) (by simp) (fun x hx => hnl x (List.mem_cons_of_mem l hx))]

theorem containsSub_fence_nl_cons (t : List Char) :
    containsSub fence ('\n' :: t) = containsSub fence t := by
  rw [containsSub_cons, fence_isPrefixOf_cons]
  simp

theorem fence_isPrefixOf_append_nl (c : Char) (a t : List Char) :
    fence.isPrefixOf (c :: (a ++ '\n' :: t)) = fence.isPrefixOf (c :: a) := by
  rcases a with _ | ⟨d, _ | ⟨e, a'⟩⟩ <;>
    simp [fence, List.isPrefixOf]

theorem containsSub_fence_append_nl (a t : List Char) :
    containsSub fence (a ++ '\n' :: t) = (containsSub fence a || containsSub fence t) := by
  induction a with
  | nil =>
    rw [List.nil_append, containsSub_fence_nl_cons]
    simp [containsSub_nil, fence, List.isPrefixOf]
  | cons c a' ih =>
    rw [List.cons_append, containsSub_cons, fence_isPrefixOf_append_nl, ih,
      containsSub_cons]
    simp [Bool.or_assoc]

theorem containsSub_fence_joinNl :
    ∀ (ls : List (List Char)),
      containsSub fence (joinNl ls) = ls.any (fun l => containsSub fence l)
  | [] => by simp [joinNl, containsSub_nil, fence, List.isPrefixOf]
  | [l] => by simp [joinNl]
  | l :: l' :: ls => by
    rw [joinNl_cons_cons, containsSub_fence_append_nl, containsSub_fence_joinNl (l' :: ls)]
    simp

/-! Properties of `clean_lines` and idempotence of the sanitizer. -/

theorem list_any_eq_false {α : Type} {p : α → Bool} {l : List α} :
    l.any p = false ↔ ∀ x ∈ l, p x = false := by
  rw [← Bool.not_eq_true, List.any_eq_true]
  simp

theorem keepLine_fcvHeader : keepLine fcvHeader = true := by decide

theorem keepLine_closeBrace : keepLine closeBrace = true := by decide

theorem startsFCV_fcvHeader : startsFCV fcvHeader = true := by decide

theorem hasNl_fcvHeader : hasNl fcvHeader = false := by decide

theorem hasNl_closeBrace : hasNl closeBrace = false := by decide

theorem fence_fcvHeader : containsSub fence fcvHeader = false := by decide

theorem fence_closeBrace : containsSub fence closeBrace = false := by decide

theorem clean_lines_expand (x : List Char) :
    clean_lines x =
      (if ((splitNl (replaceDel fence (replaceDel jsFence x))).filter keepLine).any startsFCV
       then (splitNl (replaceDel fence (replaceDel jsFence x))).filter keepLine
       else fcvHeader ::
         ((splitNl (replaceDel fence (replaceDel jsFence x))).filter keepLine ++
           [closeBrace])) := rfl

theorem clean_lines_ne_nil (s : List Char) : clean_lines s ≠ [] := by
  rw [clean_lines_expand]
  split
  · next h =>
    intro hK
    rw [hK] at h
    simp at h
  · simp

theorem mem_clean_lines {s l : List Char} (hm : l ∈ clean_lines s) :
    l = fcvHeader ∨ l = closeBrace ∨
      (l ∈ splitNl (replaceDel fence (replaceDel jsFence s)) ∧ keepLine l = true) := by
  rw [clean_lines_expand] at hm
  split at hm
  · right; right
    exact ⟨(List.mem_filter.mp hm).1, (List.mem_filter.mp hm).2⟩
  · rcases List.mem_cons.mp hm with h1 | h2
    · exact Or.inl h1
    · rcases List.mem_append.mp h2 with h3 | h4
      · right; right
        exact ⟨(List.mem_filter.mp h3).1, (List.mem_filter.mp h3).2⟩
      · right; left
        simpa using h4

theorem clean_lines_keep {s l : List Char} (hm : l ∈ clean_lines s) : keepLine l = true := by
  rcases mem_clean_lines hm with h | h | h
  · rw [h]; exact keepLine_fcvHeader
  · rw [h]; exact keepLine_closeBrace
  · exact h.2

theorem clean_lines_noNl {s l : List Char} (hm : l ∈ clean_lines s) : hasNl l = false := by
  rcases mem_clean_lines hm with h | h | h
  · rw [h]; exact hasNl_fcvHeader
  · rw [h]; exact hasNl_closeBrace
  · exact hasNl_of_mem_splitNl h.1

theorem clean_lines_noFence {s l : List Char} (hm : l ∈ clean_lines s) :
    containsSub fence l = false := by
  rcases mem_clean_lines hm with h | h | h
  · rw [h]; exact fence_fcvHeader
  · rw [h]; exact fence_closeBrace
  · have hr : containsSub fence
        (joinNl (splitNl (replaceDel fence (replaceDel jsFence s)))) = false := by
      rw [joinNl_splitNl]
      exact containsSub_fence_replaceDel _
    rw [containsSub_fence_joinNl] at hr
    exact list_any_eq_false.mp hr l h.1

theorem clean_lines_any_fcv (s : List Char) : (clean_lines s).any startsFCV = true := by
  rw [clean_lines_expand]
  split
  · next h => exact h
  · simp [startsFCV_fcvHeader]

theorem containsSub_fence_clean (s : List Char) :
    containsSub fence (clean_d3_response s) = false := by
  rw [clean_d3_response, containsSub_fence_joinNl]
  exact list_any_eq_false.mpr (fun l hl => clean_lines_noFence hl)

theorem clean_lines_of_clean (s : List Char) :
    clean_lines (clean_d3_response s) = clean_lines s := by
  have htFence := containsSub_fence_clean s
  have htJs : containsSub jsFence (clean_d3_response s) = false :=
    containsSub_jsFence_eq_false htFence
  have h3 : splitNl (clean_d3_response s) = clean_lines s := by
    rw [clean_d3_response]
    exact splitNl_joinNl _ (clean_lines_ne_nil s) (fun l hl => clean_lines_noNl hl)
  have h4 : (clean_lines s).filter keepLine = clean_lines s :=
    List.filter_eq_self.mpr (fun l hl => clean_lines_keep hl)
  rw [clean_lines_expand (clean_d3_response s), replaceDel_eq_self htJs,
    replaceDel_eq_self htFence, h3, h4, if_pos (clean_lines_any_fcv s)]

/-! Lemmas about the Refiner loop. -/

theorem refineLoop_calls_le (backend : Backend) :
    ∀ (fuel : Nat) (code : List Char) (calls : Nat),
      refineCalls (refineLoop backend code calls fuel) ≤ calls + fuel := by
  intro fuel
  induction fuel with
  | zero => intro code calls; simp [refineLoop, refineCalls]
  | succ n ih =>
    intro code calls
    rw [refineLoop]
    by_cases hv : validate_d3_code code = true
    · rw [if_pos hv]
      simp only [refineCalls]
      omega
    · rw [if_neg hv]
      cases hb : backend calls with
      | raise => simp only [refineCalls]; omega
      | text s =>
        show refineCalls (refineLoop backend (clean_d3_response s) (calls + 1) n) ≤
          calls + (n + 1)
        have := ih (clean_d3_response s) (calls + 1)
        omega

theorem refineLoop_valid_of_lt (backend : Backend) :
    ∀ (fuel : Nat) (code : List Char) (calls : Nat) (c : List Char) (k : Nat),
      refineLoop backend code calls fuel = .ok (c, k) → k < calls + fuel →
      validate_d3_code c = true := by
  intro fuel
  induction fuel with
  | zero =>
    intro code calls c k h hk
    simp only [refineLoop, Except.ok.injEq, Prod.mk.injEq] at h
    omega
  | succ n ih =>
    intro code calls c k h hk
    rw [refineLoop] at h
    by_cases hv : validate_d3_code code = true
    · rw [if_pos hv] at h
      simp only [Except.ok.injEq, Prod.mk.injEq] at h
      rw [← h.1]
      exact hv
    · rw [if_neg hv] at h
      cases hb : backend calls with
      | raise => rw [hb] at h; exact absurd h (by simp)
      | text s =>
        rw [hb] at h
        exact ih (clean_d3_response s) (calls + 1) c k h (by omega)

theorem refineLoop_exhausted (backend : Backend) :
    ∀ (fuel : Nat) (code : List Char) (calls : Nat) (c : List Char),
      0 < fuel → refineLoop backend code calls fuel = .ok (c, calls + fuel) →
      ∃ s, backend (calls + fuel - 1) = .text s ∧ c = clean_d3_response s := by
  intro fuel
  induction fuel with
  | zero => intro code calls c h0; omega
  | succ n ih =>
    intro code calls c _ h
    rw [refineLoop] at h
    by_cases hv : validate_d3_code code = true
    · rw [if_pos hv] at h
      simp only [Except.ok.injEq, Prod.mk.injEq] at h
      omega
    · rw [if_neg hv] at h
      cases hb : backend calls with
      | raise => rw [hb] at h; exact absurd h (by simp)
      | text s =>
        rw [hb] at h
        cases n with
        | zero =>
          simp only [refineLoop, Except.ok.injEq, Prod.mk.injEq] at h
          refine ⟨s, ?_, h.1.symm⟩
          simpa using hb
        | succ m =>
          have heq : calls + (m + 1 + 1) = (calls + 1) + (m + 1) := by omega
          rw [heq] at h
          obtain ⟨s', hs', hc⟩ := ih (clean_d3_response s) (calls + 1) c (by omega) h
          refine ⟨s', ?_, hc⟩
          have : calls + 1 + (m + 1) - 1 = calls + (m + 1 + 1) - 1 := by omega
          rw [← this]
          exact hs'

/-! History-store and pipeline helper facts. -/

/-- The sanitized fallback artifact passes the validator (needed because
the pipeline sanitizes the fallback before validating it). -/
theorem validate_clean_fallback :
    validate_d3_code (clean_d3_response generate_fallback_visualization) = true := by decide

theorem tail_append_singleton {α : Type} (x : α) (h : List α) (e : α) :
    ((x :: h) ++ [e]).tail = (x :: h).tail ++ [e] := rfl

/-! The claims. -/

/-- Claim C1, amended (the claim as stated is false, see the
counterexample): the artifact returned by `generate_and_validate_d3_code`
passes the Validator whenever fewer than `max_attempts = 3` refinement
backend calls were consumed; when the Refiner is exhausted (exactly 3
calls) the returned artifact may be invalid. -/
theorem claim1_valid_unless_exhausted (backend : Backend) (c : List Char) (k : Nat)
    (h : generate_and_validate_d3_code backend = .ok (c, k)) (hk : k < 3) :
    validate_d3_code c = true := by
  simp only [generate_and_validate_d3_code] at h
  by_cases hv : validate_d3_code (clean_d3_response (generate_d3_code (backend 0))) = true
  · rw [if_pos hv] at h
    simp only [Except.ok.injEq, Prod.mk.injEq] at h
    rw [← h.1]
    exact hv
  · rw [if_neg hv] at h
    exact refineLoop_valid_of_lt _ 3 _ 0 c k h (by omega)

/-- Witness for C1: with a backend that raises on the initial call, the
pipeline returns the sanitized fallback with 0 refinement calls, and the
theorem yields that this artifact validates. -/
theorem claim1_witness :
    validate_d3_code (clean_d3_response generate_fallback_visualization) = true :=
  claim1_valid_unless_exhausted (fun _ => .raise)
    (clean_d3_response generate_fallback_visualization) 0 rfl (by omega)

/-- Counterexample to C1 as stated: with a backend that always answers
the non-code text `"foo"`, the pipeline exhausts its three refinement
attempts and hands the consumer an artifact that fails the Validator. -/
theorem claim1_counterexample :
    generate_and_validate_d3_code (fun _ => .text "foo".data) =
      .ok (clean_d3_response "foo".data, 3) ∧
    validate_d3_code (clean_d3_response "foo".data) = false :=
  ⟨rfl, by decide⟩

/-- Claim C2 (confirmed): the Fallback Generator's artifact passes the
Validator.  `generate_fallback_visualization` ignores the schema (it takes
no argument in the source), so this holds unconditionally, in particular
for every schema with at least 2 columns. -/
theorem claim2_fallback_validates :
    validate_d3_code generate_fallback_visualization = true := by decide

/-- Claim C3, amended (the claim as stated is false, see the
counterexample): when `refine_d3_code` performs all `max_attempts`
refinement attempts without success, it returns the sanitized text of the
last backend response — the last attempt — and not the Fallback
Generator's artifact. -/
theorem claim3_exhausted_returns_last_attempt (backend : Backend) (initial : List Char)
    (n : Nat) (c : List Char) (hn : 0 < n)
    (h : refine_d3_code initial backend n = .ok (c, n)) :
    ∃ s, backend (n - 1) = .text s ∧ c = clean_d3_response s := by
  have h' : refineLoop backend initial 0 n = .ok (c, 0 + n) := by
    rw [Nat.zero_add]
    exact h
  have := refineLoop_exhausted backend n initial 0 c hn h'
  rwa [Nat.zero_add] at this

/-- Witness for C3: the always-`"foo"` backend exhausts three attempts on
the invalid seed `"bar"`, and the returned artifact is the sanitized last
response. -/
theorem claim3_witness :
    ∃ s, (fun _ : Nat => BackendResp.text "foo".data) (3 - 1) = BackendResp.text s ∧
      clean_d3_response "foo".data = clean_d3_response s :=
  claim3_exhausted_returns_last_attempt (fun _ => .text "foo".data) "bar".data 3
    (clean_d3_response "foo".data) (by omega) rfl

/-- Counterexample to C3 as stated: in the exhausted case below the value
returned by `refine_d3_code` is not the Fallback Generator's artifact. -/
theorem claim3_counterexample :
    refine_d3_code "bar".data (fun _ => .text "foo".data) 3 =
      .ok (clean_d3_response "foo".data, 3) ∧
    clean_d3_response "foo".data ≠ generate_fallback_visualization :=
  ⟨rfl, by decide⟩

/-- Claim C4, amended (the claim as stated is false, see the
counterexample): a whitespace-only backend response on the initial
generation is caught inside `generate_d3_code` (the `ValueError` falls
into its own `except` handler), which returns the fallback immediately;
the pipeline therefore yields the sanitized Fallback artifact after zero
refinement attempts — the Refiner loop is never entered. -/
theorem claim4_empty_response_immediate_fallback (backend : Backend) (s : List Char)
    (h0 : backend 0 = .text s) (hs : s.all isPySpace = true) :
    generate_and_validate_d3_code backend =
      .ok (clean_d3_response generate_fallback_visualization, 0) := by
  have hg : generate_d3_code (backend 0) = generate_fallback_visualization := by
    rw [h0]
    simp [generate_d3_code, hs]
  simp only [generate_and_validate_d3_code]
  rw [hg, if_pos validate_clean_fallback]

/-- Witness for C4: the always-empty backend. -/
theorem claim4_witness :
    (fun _ : Nat => BackendResp.text []) 0 = BackendResp.text [] ∧
    ([] : List Char).all isPySpace = true ∧
    generate_and_validate_d3_code (fun _ => .text []) =
      .ok (clean_d3_response generate_fallback_visualization, 0) :=
  ⟨rfl, rfl, claim4_empty_response_immediate_fallback (fun _ => .text []) [] rfl rfl⟩

/-- Counterexample to C4 as stated: with a backend that always returns
the empty string the pipeline performs 0 refinement generation calls, not
`max_attempts = 3`. -/
theorem claim4_counterexample :
    generate_and_validate_d3_code (fun _ => .text []) =
      .ok (clean_d3_response generate_fallback_visualization, 0) ∧
    refineCalls (generate_and_validate_d3_code (fun _ => .text [])) ≠ 3 :=
  ⟨rfl, by decide⟩

/-- Claim C5, amended (the claim as stated is false, see the
counterexample): when the initial backend call raises, the exception is
caught and only logged inside `generate_d3_code` — it is not surfaced to
the caller — and the pipeline returns the sanitized Fallback artifact as
a normal value with zero refinement backend calls. -/
theorem claim5_raise_immediate_fallback (backend : Backend)
    (h0 : backend 0 = .raise) :
    generate_and_validate_d3_code backend =
      .ok (clean_d3_response generate_fallback_visualization, 0) := by
  have hg : generate_d3_code (backend 0) = generate_fallback_visualization := by
    rw [h0]
    rfl
  simp only [generate_and_validate_d3_code]
  rw [hg, if_pos validate_clean_fallback]

/-- Witness for C5: the always-raising backend. -/
theorem claim5_witness :
    (fun _ : Nat => BackendResp.raise) 0 = BackendResp.raise ∧
    generate_and_validate_d3_code (fun _ => .raise) =
      .ok (clean_d3_response generate_fallback_visualization, 0) :=
  ⟨rfl, claim5_raise_immediate_fallback (fun _ => .raise) rfl⟩

/-- Counterexample to C5 as stated: with a raising backend the pipeline
returns a normal `.ok` artifact — no error reaches the caller — and that
artifact is the sanitized (not verbatim) fallback. -/
theorem claim5_counterexample :
    generate_and_validate_d3_code (fun _ => .raise) =
      .ok (clean_d3_response generate_fallback_visualization, 0) ∧
    clean_d3_response generate_fallback_visualization ≠ generate_fallback_visualization :=
  ⟨rfl, by decide⟩

/-- Claim C6, amended (the claim as stated is false, see the
counterexample): only the manual-code-edit append path evicts.  The
initial-generation and update-request appends always grow the history by
one entry with no eviction, while the manual-edit append keeps the size
within `MAX_WORKFLOW_HISTORY` (given it was within bounds), appending
without eviction below capacity and evicting exactly the oldest entry at
capacity. -/
theorem claim6_only_manual_edit_bounded (h : List HistoryEntry) (u c : List Char) :
    (appendInitial h c).length = h.length + 1 ∧
    (appendUpdate h u c).length = h.length + 1 ∧
    (h.length ≤ MAX_WORKFLOW_HISTORY →
      (appendManualEdit h c).length ≤ MAX_WORKFLOW_HISTORY) ∧
    (h.length < MAX_WORKFLOW_HISTORY →
      appendManualEdit h c = h ++ [⟨none, "Manual code edit".data, c⟩]) ∧
    (MAX_WORKFLOW_HISTORY ≤ h.length →
      appendManualEdit h c = h.tail ++ [⟨none, "Manual code edit".data, c⟩]) := by
  refine ⟨by simp [appendInitial], by simp [appendUpdate], ?_, ?_, ?_⟩
  · intro hle
    simp only [appendManualEdit]
    split
    · next hgt =>
      simp only [List.length_tail, List.length_append, List.length_singleton]
      omega
    · next hng =>
      simp only [List.length_append, List.length_singleton] at hng ⊢
      omega
  · intro hlt
    simp only [appendManualEdit]
    rw [if_neg]
    simp only [List.length_append, List.length_singleton]
    omega
  · intro hge
    simp only [appendManualEdit]
    rw [if_pos (by simp only [List.length_append, List.length_singleton]; omega)]
    cases h with
    | nil => simp [MAX_WORKFLOW_HISTORY] at hge
    | cons x h' => exact tail_append_singleton x h' _

/-- Witness for C6: a history at capacity (10 entries); the manual-edit
append stays at capacity and evicts exactly the oldest entry. -/
theorem claim6_witness :
    (appendManualEdit (List.replicate 10 ⟨none, [], []⟩) []).length ≤
      MAX_WORKFLOW_HISTORY ∧
    appendManualEdit (List.replicate 10 ⟨none, [], []⟩) [] =
      (List.replicate 10 (⟨none, [], []⟩ : HistoryEntry)).tail ++
        [⟨none, "Manual code edit".data, []⟩] :=
  ⟨(claim6_only_manual_edit_bounded (List.replicate 10 ⟨none, [], []⟩) [] []).2.2.1
      (by decide),
   (claim6_only_manual_edit_bounded (List.replicate 10 ⟨none, [], []⟩) [] []).2.2.2.2
      (by decide)⟩

/-- Counterexample to C6 as stated: the update-request append path, run
on a history already at capacity, produces a history of 11 entries —
the size exceeds `MAX_WORKFLOW_HISTORY = 10` and nothing is evicted. -/
theorem claim6_counterexample :
    MAX_WORKFLOW_HISTORY <
      (appendUpdate (List.replicate 10 ⟨none, [], []⟩) [] []).length := by
  simp [appendUpdate, MAX_WORKFLOW_HISTORY]

/-- Claim C7 (confirmed): one invocation of `refine_d3_code` with
parameter `max_attempts` issues at most `max_attempts` backend calls (for
every initial artifact and every backend behavior, raising or not), and
issues zero calls when the initial artifact already passes the
Validator — it is then returned unchanged. -/
theorem claim7_refiner_call_bound (initial : List Char) (backend : Backend) (n : Nat) :
    refineCalls (refine_d3_code initial backend n) ≤ n ∧
    (validate_d3_code initial = true → refine_d3_code initial backend n = .ok (initial, 0)) := by
  constructor
  · have := refineLoop_calls_le backend n initial 0
    simpa using this
  · intro hv
    cases n with
    | zero => rfl
    | succ m =>
      rw [refine_d3_code, refineLoop, if_pos hv]

/-- Witness for C7: the fallback artifact already validates, so the
Refiner issues zero calls and returns it unchanged. -/
theorem claim7_witness :
    refineCalls (refine_d3_code generate_fallback_visualization (fun _ => .raise) 3) ≤ 3 ∧
    refine_d3_code generate_fallback_visualization (fun _ => .raise) 3 =
      .ok (generate_fallback_visualization, 0) :=
  ⟨(claim7_refiner_call_bound generate_fallback_visualization (fun _ => .raise) 3).1,
   (claim7_refiner_call_bound generate_fallback_visualization (fun _ => .raise) 3).2
      (by decide)⟩

/-- Claim C8 (confirmed): the Sanitizer is idempotent — for every string,
sanitizing twice yields the same string as sanitizing once. -/
theorem claim8_sanitizer_idempotent (s : List Char) :
    clean_d3_response (clean_d3_response s) = clean_d3_response s := by
  show joinNl (clean_lines (clean_d3_response s)) = clean_d3_response s
  rw [clean_lines_of_clean]
  rfl

/-- Claim C9 (confirmed): reverting to history entry `i` is a pure read:
it leaves the whole history (hence its size) unchanged, sets only the
current-artifact pointer to the code stored at entry `i`, and repeating
the revert with the same index yields the identical state. -/
theorem claim9_revert_pure (st : AppState) (i : Nat)
    (hi : i < st.workflow_history.length) :
    (revertStep st i hi).workflow_history = st.workflow_history ∧
    (revertStep st i hi).current_viz = (st.workflow_history.get ⟨i, hi⟩).code ∧
    revertStep (revertStep st i hi) i hi = revertStep st i hi :=
  ⟨rfl, rfl, rfl⟩

/-- Witness for C9: a two-entry history; reverting to entry 0 reads code
`['a']` and leaves the history untouched. -/
theorem claim9_witness :
    (revertStep ⟨[⟨some 1, [], ['a']⟩, ⟨some 2, [], ['b']⟩], ['b']⟩ 0
        (by decide)).current_viz = ['a'] ∧
    (revertStep ⟨[⟨some 1, [], ['a']⟩, ⟨some 2, [], ['b']⟩], ['b']⟩ 0
        (by decide)).workflow_history = [⟨some 1, [], ['a']⟩, ⟨some 2, [], ['b']⟩] := by
  obtain ⟨h1, h2, h3⟩ :=
    claim9_revert_pure ⟨[⟨some 1, [], ['a']⟩, ⟨some 2, [], ['b']⟩], ['b']⟩ 0 (by decide)
  exact ⟨h2, h1⟩

/-- Claim C10 (confirmed): `generate_d3_code` is total over backend
behaviors — whenever the backend call raises (any exception) or the
returned text is whitespace-only, no exception propagates (the model's
return type carries no error case, mirroring the catch-all `except`
handler of the source) and the function returns exactly the fixed
Fallback Generator string. -/
theorem claim10_generate_total_fallback (resp : BackendResp)
    (h : resp = .raise ∨ ∃ s, resp = .text s ∧ s.all isPySpace = true) :
    generate_d3_code resp = generate_fallback_visualization := by
  rcases h with h | ⟨s, hs, hws⟩
  · rw [h]
    rfl
  · rw [hs]
    simp [generate_d3_code, hws]

/-- Witness for C10: the raising backend response. -/
theorem claim10_witness :
    generate_d3_code .raise = generate_fallback_visualization :=
  claim10_generate_total_fallback .raise (Or.inl rfl)
